import Mathlib

/-!
Formal model of `src/ant_easy.py` (ant-routing-py).

The file shallowly embeds the functions of `ant_easy.py` in Lean:
pure fragments become Lean functions, Python exceptions become an
explicit `PyExn` error type, unbounded recursion is modelled with a
fuel parameter (`none` = the recursion exceeds every finite depth,
i.e. Python would die with RecursionError), and randomness
(`getrandbits`, `randint`) is modelled by passing the random draw as
an explicit argument.

The classes `Node` and `Payment` are imported by `ant_easy.py` from
`ant_testing`, a module that is not part of the available sources;
where a definition depends on their internals it is modelled from the
specification and marked as such in its doc comment.
-/

namespace AntRouting

/-- A node as consulted by `build_route`: only its `match_data`
dictionary (mapping a match id to the backward pointer recorded for
that match) is read.  A missing key models Python's `KeyError`. -/
structure BNode where
  match_data : Nat → Option Nat

/-- The Python exceptions raised by the modelled fragments of
`ant_easy.py`.  The two `raise Exception(...)` sites in `get_route`
are the spec's `InvalidEndpoint` error kind and keep their messages. -/
inductive PyExn where
  | invalidEndpoint (msg : String)
  | keyError
  | indexError
deriving DecidableEq

/-- Shallow embedding of `build_route(network, matchId, current, res)`
(src/ant_easy.py lines 136-146).  `fuel` bounds the recursion depth:
a result `none` means the recursion of the Python source does not
return within any finite depth (CPython would hit its recursion
limit).  `some (Except.error e)` models an exception `e` escaping,
`some (Except.ok l)` a normal return of the list `l`.  The `res`
argument is the accumulator list; Python's default is the shared
mutable list `res=[]`, which is fresh only on the first call. -/
def build_route (net : List BNode) (matchId : Nat) :
    Nat → Nat → List Nat → Option (Except PyExn (List Nat))
  | 0, _, _ => none
  | fuel + 1, current, res =>
    match net[current]? with
    | none => some (Except.error PyExn.indexError)
    | some node =>
      match node.match_data matchId with
      | none => some (Except.error PyExn.keyError)
      | some nxt =>
        if current = nxt then some (Except.ok (res ++ [current]))
        else build_route net matchId fuel nxt (res ++ [current])

/-- The backward pointer read by one step of `build_route`:
`network[u].match_data[matchId]`, `none` when either lookup fails. -/
def step (net : List BNode) (matchId : Nat) (u : Nat) : Option Nat :=
  (net[u]?).bind fun nd => nd.match_data matchId

/-- `ChainTo net matchId u l`: starting from `u`, the backward
pointers for `matchId` are all defined and reach a node that points to
itself; `l` is the visited chain `u, step u, ...` up to and including
that self-pointing node. -/
inductive ChainTo (net : List BNode) (matchId : Nat) : Nat → List Nat → Prop
  | self (u : Nat) : step net matchId u = some u → ChainTo net matchId u [u]
  | cons (u v : Nat) (l : List Nat) : step net matchId u = some v → u ≠ v →
      ChainTo net matchId v l → ChainTo net matchId u (u :: l)

lemma step_eq_some {net : List BNode} {matchId u v : Nat}
    (h : step net matchId u = some v) :
    ∃ nd, net[u]? = some nd ∧ nd.match_data matchId = some v := by
  unfold step at h
  rcases hg : net[u]? with _ | nd
  · rw [hg] at h; simp at h
  · rw [hg] at h; simp at h; exact ⟨nd, rfl, h⟩

/-- `build_route` run with enough fuel appends exactly the chain to the
accumulator and returns normally. -/
lemma build_route_of_chainTo {net : List BNode} {matchId : Nat}
    {start : Nat} {l : List Nat} (h : ChainTo net matchId start l) :
    ∀ fuel res, l.length ≤ fuel →
      build_route net matchId fuel start res = some (Except.ok (res ++ l)) := by
  induction h with
  | self u hu =>
    intro fuel res hfuel
    rcases fuel with _ | f
    · simp at hfuel
    · obtain ⟨nd, hnd, hmd⟩ := step_eq_some hu
      simp [build_route, hnd, hmd]
  | cons u v l huv hne _ ih =>
    intro fuel res hfuel
    rcases fuel with _ | f
    · simp at hfuel
    · obtain ⟨nd, hnd, hmd⟩ := step_eq_some huv
      have hf : l.length ≤ f := by
        simpa [Nat.succ_le_succ_iff] using hfuel
      simp only [build_route, hnd, hmd, if_neg hne]
      rw [ih f (res ++ [u]) hf]
      simp

lemma chainTo_ne_nil {net : List BNode} {matchId start : Nat} {l : List Nat}
    (h : ChainTo net matchId start l) : l ≠ [] := by
  cases h <;> simp

lemma chainTo_head {net : List BNode} {matchId start : Nat} {l : List Nat}
    (h : ChainTo net matchId start l) : l.head? = some start := by
  cases h <;> rfl

lemma chainTo_chain' {net : List BNode} {matchId start : Nat} {l : List Nat}
    (h : ChainTo net matchId start l) :
    List.Chain' (fun u v => step net matchId u = some v) l := by
  induction h with
  | self u hu => simp
  | cons u v l huv hne hch ih =>
    rw [List.chain'_cons']
    refine ⟨?_, ih⟩
    intro w hw
    rw [chainTo_head hch] at hw
    cases hw
    exact huv

lemma chainTo_getLast {net : List BNode} {matchId start : Nat} {l : List Nat}
    (h : ChainTo net matchId start l) :
    ∃ e, l.getLast? = some e ∧ step net matchId e = some e := by
  induction h with
  | self u hu => exact ⟨u, rfl, hu⟩
  | cons u v l huv hne hch ih =>
    obtain ⟨e, he, hse⟩ := ih
    refine ⟨e, ?_, hse⟩
    rcases l with _ | ⟨x, xs⟩
    · exact absurd rfl (chainTo_ne_nil hch)
    · simpa [List.getLast?_cons_cons] using he

lemma chainTo_unique_fixpoint {net : List BNode} {matchId start : Nat}
    {l : List Nat} (h : ChainTo net matchId start l)
    {e : Nat} (he : l.getLast? = some e) :
    ∀ u ∈ l, step net matchId u = some u → u = e := by
  induction h with
  | self u hu =>
    intro w hw _
    simp at hw he
    omega
  | cons u v l huv hne hch ih =>
    intro w hw hsw
    have hlne : l ≠ [] := chainTo_ne_nil hch
    have he' : l.getLast? = some e := by
      rcases l with _ | ⟨x, xs⟩
      · exact absurd rfl hlne
      · simpa [List.getLast?_cons_cons] using he
    rcases List.mem_cons.mp hw with hwu | hwl
    · subst hwu
      rw [huv] at hsw
      cases hsw
      exact absurd rfl hne
    · exact ih he' w hwl hsw

/-- C1.  If the backward pointers for `matchId`, starting from `start`,
reach a self-pointing node, then `build_route` called with a fresh
accumulator (the first call with the default `res=[]`) and enough fuel
returns the chain `l`: it begins with `start`, every consecutive pair
`(u, v)` satisfies `network[u].match_data[matchId] = v`, its last
element is the unique self-pointing node of the chain, and if `start`
itself is self-pointing the route is the one-element list `[start]`. -/
theorem claim_C1 (net : List BNode) (matchId start : Nat) (l : List Nat)
    (fuel : Nat) (h : ChainTo net matchId start l) (hfuel : l.length ≤ fuel) :
    build_route net matchId fuel start [] = some (Except.ok l) ∧
    l.head? = some start ∧
    List.Chain' (fun u v => step net matchId u = some v) l ∧
    (∃ e, l.getLast? = some e ∧ step net matchId e = some e ∧
      ∀ u ∈ l, step net matchId u = some u → u = e) ∧
    (step net matchId start = some start → l = [start]) := by
  refine ⟨?_, chainTo_head h, chainTo_chain' h, ?_, ?_⟩
  · simpa using build_route_of_chainTo h fuel [] hfuel
  · obtain ⟨e, he, hse⟩ := chainTo_getLast h
    exact ⟨e, he, hse, chainTo_unique_fixpoint h he⟩
  · intro hself
    cases h with
    | self u hu => rfl
    | cons u v l huv hne hch =>
      rw [huv] at hself
      cases hself
      exact absurd rfl hne

/-- Concrete network for the C1 witness: pointers 0 → 1 → 2 → 2. -/
def c1Net : List BNode :=
  [⟨fun _ => some 1⟩, ⟨fun _ => some 2⟩, ⟨fun _ => some 2⟩]

theorem claim_C1_witness :
    ChainTo c1Net 0 0 [0, 1, 2] ∧ ([0, 1, 2] : List Nat).length ≤ 5 ∧
    (build_route c1Net 0 5 0 [] = some (Except.ok [0, 1, 2]) ∧
      ([0, 1, 2] : List Nat).head? = some 0 ∧
      List.Chain' (fun u v => step c1Net 0 u = some v) [0, 1, 2] ∧
      (∃ e, ([0, 1, 2] : List Nat).getLast? = some e ∧
        step c1Net 0 e = some e ∧
        ∀ u ∈ ([0, 1, 2] : List Nat), step c1Net 0 u = some u → u = e) ∧
      (step c1Net 0 0 = some 0 → [0, 1, 2] = [0])) := by
  have hch : ChainTo c1Net 0 0 [0, 1, 2] := by
    refine ChainTo.cons 0 1 _ rfl (by decide) ?_
    refine ChainTo.cons 1 2 _ rfl (by decide) ?_
    exact ChainTo.self 2 rfl
  exact ⟨hch, by decide, claim_C1 c1Net 0 0 [0, 1, 2] 5 hch (by decide)⟩

/-- Cyclic backward pointers with no self-pointing node:
node 0 points to node 1 and node 1 back to node 0 (for every match id). -/
def cycNet : List BNode :=
  [⟨fun _ => some 1⟩, ⟨fun _ => some 0⟩]

/-- C2 (code bug).  On a backward-pointer cycle without a self-pointing
node, `build_route` has no cycle guard: the recursion never returns,
whatever recursion depth (fuel) it is granted and whatever the
accumulator already holds — CPython dies with RecursionError instead
of raising the Integrity error the specification requires. -/
theorem claim_C2_cycle_diverges :
    ∀ fuel res, build_route cycNet 0 fuel 0 res = none ∧
      build_route cycNet 0 fuel 1 res = none := by
  intro fuel
  induction fuel with
  | zero => intro res; exact ⟨rfl, rfl⟩
  | succ f ih =>
    intro res
    constructor
    · show build_route cycNet 0 f 1 (res ++ [0]) = none
      exact (ih (res ++ [0])).2
    · show build_route cycNet 0 f 0 (res ++ [1]) = none
      exact (ih (res ++ [1])).1

/-- A one-node network whose `match_data` dictionary is empty: no match
has been produced for any search, so no key is present. -/
def noMatchNet : List BNode :=
  [⟨fun _ => none⟩]

/-- C4 (code bug).  When no match exists for a search, the lookup
`network[current].match_data[matchId]` raises `KeyError` — not the
`NotMatched` error the specification requires — at every recursion
depth, for every match id and accumulator. -/
theorem claim_C4_keyError :
    ∀ fuel matchId res,
      build_route noMatchNet matchId (fuel + 1) 0 res =
        some (Except.error PyExn.keyError) := by
  intro fuel matchId res
  rfl

/-- A one-node network whose node 0 points to itself. -/
def selfNet : List BNode :=
  [⟨fun _ => some 0⟩]

/-- C10 (code bug).  Python evaluates the default `res=[]` once, so two
successive calls `build_route(network, matchId, start)` share one
mutable accumulator.  The first call (fresh accumulator `[]`) returns
`[0]` and leaves the shared default list holding `[0]`; the second
call therefore starts from accumulator `[0]` and returns `[0, 0]`,
not the `[0]` the claim's determinism would demand. -/
theorem claim_C10_shared_default :
    build_route selfNet 0 2 0 [] = some (Except.ok [0]) ∧
    build_route selfNet 0 2 0 [0] = some (Except.ok [0, 0]) ∧
    ([0, 0] : List Nat) ≠ [0] := by
  exact ⟨rfl, rfl, by decide⟩

/-- Python's `bin(n)[2:]`: the binary digits of `n`, most significant
first, `"0"` for `n = 0`. -/
def pyBin (n : Nat) : List Char :=
  if n = 0 then ['0']
  else (Nat.digits 2 n).reverse.map fun d => if d = 1 then '1' else '0'

/-- Python's `str.zfill(w)` on a sign-free string: left-pad with `'0'`
up to width `w`. -/
def pyZfill (w : Nat) (s : List Char) : List Char :=
  List.replicate (w - s.length) '0' ++ s

/-- Shallow embedding of `generate_seed` (src/ant_easy.py lines 43-47):
`bin(getrandbits(128))[2:].zfill(128)`.  The draw `r` of
`getrandbits(128)` — an arbitrary natural below `2 ^ 128` — is passed
explicitly. -/
def generate_seed (r : Nat) : List Char :=
  pyZfill 128 (pyBin r)

/-- Python's `randint(a, b)` (both bounds inclusive), the draw `r`
passed explicitly. -/
def randintPy (a b r : Nat) : Nat :=
  a + r % (b - a + 1)

/-- Modelled from the spec: the `Payment` class lives in the missing
`ant_testing` module.  Its fields follow the positional constructor
calls in `get_route` (src/ant_easy.py lines 88-107) read against §3's
data model: seed, amount, the two role flags (Bob-side then
Alice-side, the order §3 lists them), the two endpoint nodes (modelled
by their identities), the fee budget, and the hop-budget counter. -/
structure PaymentR where
  seed : List Char
  amount : Nat
  is_bob : Bool
  is_alice : Bool
  bob_node : Nat
  alice_node : Nat
  fees : Nat
  counter : Nat
deriving DecidableEq

/-- A node as touched by `get_route`: its maximum fee tolerance
(`maxfees`, read at src/ant_easy.py line 95) and its payment slot
(`set_payment`, modelled from the spec as storing the record — the
method body lives in the missing `ant_testing` module). -/
structure NodeSt where
  maxfees : Nat
  payment : Option PaymentR
deriving DecidableEq, Inhabited

/-- Shallow embedding of `get_route(network, alice, bob, amount)`
(src/ant_easy.py lines 70-118).  The two random draws (`getrandbits`
inside `generate_seed`, and `randint(64,128)`) are passed explicitly.
The result is the final network state, whether the per-node search
tasks were launched (the `asyncio.create_task` loop of lines 113-118),
and the exception raised, if any. -/
def get_route (net : List NodeSt) (alice bob : Int) (amount : Nat)
    (r128 rCtr : Nat) : List NodeSt × Bool × Option PyExn :=
  if ¬(0 ≤ alice ∧ alice < (net.length : Int)) ∨
      ¬(0 ≤ bob ∧ bob < (net.length : Int)) then
    (net, false, some (PyExn.invalidEndpoint "alice or bob are not connected"))
  else if bob = alice then
    (net, false, some (PyExn.invalidEndpoint "alice and bob is the same node"))
  else
    let seed := generate_seed r128
    let counter := randintPy 64 128 rCtr
    let node_bob := net.getD bob.toNat default
    let node_alice := net.getD alice.toNat default
    let payment_alice : PaymentR :=
      ⟨seed, amount, false, true, bob.toNat, alice.toNat,
        node_bob.maxfees + node_alice.maxfees, counter⟩
    let payment_bob : PaymentR :=
      ⟨seed, amount, true, false, bob.toNat, alice.toNat,
        node_bob.maxfees + node_alice.maxfees, counter⟩
    let net1 := net.set bob.toNat { node_bob with payment := some payment_bob }
    let net2 := net1.set alice.toNat { node_alice with payment := some payment_alice }
    (net2, true, none)

/-- The payment record `get_route` installs on Bob's node. -/
def bobPayment (net : List NodeSt) (alice bob : Int) (amount r128 rCtr : Nat) :
    PaymentR :=
  ⟨generate_seed r128, amount, true, false, bob.toNat, alice.toNat,
    (net.getD bob.toNat default).maxfees + (net.getD alice.toNat default).maxfees,
    randintPy 64 128 rCtr⟩

/-- The payment record `get_route` installs on Alice's node. -/
def alicePayment (net : List NodeSt) (alice bob : Int) (amount r128 rCtr : Nat) :
    PaymentR :=
  ⟨generate_seed r128, amount, false, true, bob.toNat, alice.toNat,
    (net.getD bob.toNat default).maxfees + (net.getD alice.toNat default).maxfees,
    randintPy 64 128 rCtr⟩

lemma get_route_of_valid (net : List NodeSt) (alice bob : Int)
    (amount r128 rCtr : Nat)
    (hA : 0 ≤ alice ∧ alice < (net.length : Int))
    (hB : 0 ≤ bob ∧ bob < (net.length : Int)) (hne : bob ≠ alice) :
    get_route net alice bob amount r128 rCtr =
      ((net.set bob.toNat
          { net.getD bob.toNat default with
            payment := some (bobPayment net alice bob amount r128 rCtr) }).set
        alice.toNat
          { net.getD alice.toNat default with
            payment := some (alicePayment net alice bob amount r128 rCtr) },
        true, none) := by
  rw [get_route, if_neg (by tauto), if_neg hne]
  rfl

lemma get_route_error_of_invalid (net : List NodeSt) (alice bob : Int)
    (amount r128 rCtr : Nat)
    (h : ¬(0 ≤ alice ∧ alice < (net.length : Int)) ∨
      ¬(0 ≤ bob ∧ bob < (net.length : Int)) ∨ alice = bob) :
    ∃ s, get_route net alice bob amount r128 rCtr =
      (net, false, some (PyExn.invalidEndpoint s)) := by
  by_cases h1 : ¬(0 ≤ alice ∧ alice < (net.length : Int)) ∨
      ¬(0 ≤ bob ∧ bob < (net.length : Int))
  · exact ⟨_, by rw [get_route, if_pos h1]⟩
  · have hba : bob = alice := by tauto
    exact ⟨_, by rw [get_route, if_neg h1, if_pos hba]⟩

/-- On a successful run the error component is `none`: the validity
conditions therefore hold whenever it is `none`. -/
lemma get_route_none_valid (net : List NodeSt) (alice bob : Int)
    (amount r128 rCtr : Nat)
    (h : (get_route net alice bob amount r128 rCtr).2.2 = none) :
    (0 ≤ alice ∧ alice < (net.length : Int)) ∧
    (0 ≤ bob ∧ bob < (net.length : Int)) ∧ bob ≠ alice := by
  by_contra hc
  have hinv : ¬(0 ≤ alice ∧ alice < (net.length : Int)) ∨
      ¬(0 ≤ bob ∧ bob < (net.length : Int)) ∨ alice = bob := by tauto
  obtain ⟨s, hs⟩ := get_route_error_of_invalid net alice bob amount r128 rCtr hinv
  rw [hs] at h
  simp at h

/-- C3.  `get_route` fails (raising the spec's `InvalidEndpoint` kind)
exactly when `alice` or `bob` lies outside `[0, len(network))` or the
two endpoints coincide; in that failure case the network state is
returned unchanged — no payment record is installed — and no search
task is launched. -/
theorem claim_C3 (net : List NodeSt) (alice bob : Int) (amount r128 rCtr : Nat) :
    ((∃ e, (get_route net alice bob amount r128 rCtr).2.2 = some e) ↔
      (¬(0 ≤ alice ∧ alice < (net.length : Int)) ∨
        ¬(0 ≤ bob ∧ bob < (net.length : Int)) ∨ alice = bob)) ∧
    (∀ e, (get_route net alice bob amount r128 rCtr).2.2 = some e →
      (∃ s, e = PyExn.invalidEndpoint s) ∧
      (get_route net alice bob amount r128 rCtr).1 = net ∧
      (get_route net alice bob amount r128 rCtr).2.1 = false) := by
  by_cases h : ¬(0 ≤ alice ∧ alice < (net.length : Int)) ∨
      ¬(0 ≤ bob ∧ bob < (net.length : Int)) ∨ alice = bob
  · obtain ⟨s, hs⟩ := get_route_error_of_invalid net alice bob amount r128 rCtr h
    rw [hs]
    refine ⟨iff_of_true ⟨_, rfl⟩ h, ?_⟩
    rintro e he
    cases he
    exact ⟨⟨s, rfl⟩, rfl, rfl⟩
  · push_neg at h
    obtain ⟨hA, hB, hne⟩ := h
    rw [get_route_of_valid net alice bob amount r128 rCtr hA hB
      (fun hba => hne hba.symm)]
    constructor
    · constructor
      · rintro ⟨e, he⟩
        cases he
      · intro hc
        rcases hc with hc | hc | hc
        · exact absurd hA hc
        · exact absurd hB hc
        · exact absurd hc hne
    · rintro e he
      cases he

/-- A concrete two-node network for the `get_route` witnesses. -/
def netW : List NodeSt :=
  [⟨3, none⟩, ⟨5, none⟩]

theorem claim_C3_witness :
    ((∃ e, (get_route netW 0 0 1 0 0).2.2 = some e) ↔
      (¬(0 ≤ (0 : Int) ∧ (0 : Int) < (netW.length : Int)) ∨
        ¬(0 ≤ (0 : Int) ∧ (0 : Int) < (netW.length : Int)) ∨ (0 : Int) = 0)) ∧
    (∀ e, (get_route netW 0 0 1 0 0).2.2 = some e →
      (∃ s, e = PyExn.invalidEndpoint s) ∧
      (get_route netW 0 0 1 0 0).1 = netW ∧
      (get_route netW 0 0 1 0 0).2.1 = false) :=
  claim_C3 netW 0 0 1 0 0

/-- On a successful run, the two endpoints' nodes in the final state
hold exactly the two payment records built at src/ant_easy.py lines
88-110. -/
lemma get_route_installed (net : List NodeSt) (alice bob : Int)
    (amount r128 rCtr : Nat)
    (h : (get_route net alice bob amount r128 rCtr).2.2 = none) :
    (get_route net alice bob amount r128 rCtr).1[alice.toNat]? =
      some { net.getD alice.toNat default with
             payment := some (alicePayment net alice bob amount r128 rCtr) } ∧
    (get_route net alice bob amount r128 rCtr).1[bob.toNat]? =
      some { net.getD bob.toNat default with
             payment := some (bobPayment net alice bob amount r128 rCtr) } := by
  obtain ⟨hA, hB, hne⟩ := get_route_none_valid net alice bob amount r128 rCtr h
  have haN : alice.toNat < net.length := by omega
  have hbN : bob.toNat < net.length := by omega
  have hab : alice.toNat ≠ bob.toNat := by omega
  rw [get_route_of_valid net alice bob amount r128 rCtr hA hB hne]
  constructor
  · exact List.getElem?_set_eq_of_lt _ (by rw [List.length_set]; exact haN)
  · rw [List.getElem?_set_ne hab]
    exact List.getElem?_set_eq_of_lt _ hbN

/-- C7.  On every successful `get_route` call the initial hop-budget
counter — modelling `randint(64, 128)` at an arbitrary draw — lies in
the inclusive range `[64, 128]`, and both endpoints' payment records
are installed with exactly that counter value. -/
theorem claim_C7 (net : List NodeSt) (alice bob : Int) (amount r128 rCtr : Nat)
    (h : (get_route net alice bob amount r128 rCtr).2.2 = none) :
    64 ≤ randintPy 64 128 rCtr ∧ randintPy 64 128 rCtr ≤ 128 ∧
    ∃ na nb pa pb,
      (get_route net alice bob amount r128 rCtr).1[alice.toNat]? = some na ∧
      (get_route net alice bob amount r128 rCtr).1[bob.toNat]? = some nb ∧
      na.payment = some pa ∧ nb.payment = some pb ∧
      pa.counter = randintPy 64 128 rCtr ∧
      pb.counter = randintPy 64 128 rCtr := by
  obtain ⟨ha, hb⟩ := get_route_installed net alice bob amount r128 rCtr h
  refine ⟨Nat.le_add_right 64 _, ?_, _, _, _, _, ha, hb, rfl, rfl, rfl, rfl⟩
  have : rCtr % 65 < 65 := Nat.mod_lt _ (by norm_num)
  unfold randintPy
  omega

theorem claim_C7_witness :
    (get_route netW 0 1 1 0 0).2.2 = none ∧
    (64 ≤ randintPy 64 128 0 ∧ randintPy 64 128 0 ≤ 128 ∧
      ∃ na nb pa pb,
        (get_route netW 0 1 1 0 0).1[(0 : Int).toNat]? = some na ∧
        (get_route netW 0 1 1 0 0).1[(1 : Int).toNat]? = some nb ∧
        na.payment = some pa ∧ nb.payment = some pb ∧
        pa.counter = randintPy 64 128 0 ∧
        pb.counter = randintPy 64 128 0) :=
  ⟨rfl, claim_C7 netW 0 1 1 0 0 rfl⟩

lemma pyBin_length_le {n k : Nat} (hn : n < 2 ^ k) (hk : 1 ≤ k) :
    (pyBin n).length ≤ k := by
  unfold pyBin
  split
  · simpa
  · rename_i h0
    rw [List.length_map, List.length_reverse,
      Nat.digits_len 2 n (by norm_num) h0]
    have := Nat.log_lt_of_lt_pow h0 hn
    omega

lemma pyBin_chars {n : Nat} : ∀ c ∈ pyBin n, c = '0' ∨ c = '1' := by
  unfold pyBin
  split
  · intro c hc
    simp at hc
    exact Or.inl hc
  · intro c hc
    simp only [List.mem_map, List.mem_reverse] at hc
    obtain ⟨d, _, hd⟩ := hc
    by_cases h1 : d = 1
    · right; rw [← hd, if_pos h1]
    · left; rw [← hd, if_neg h1]

lemma generate_seed_length {r : Nat} (hr : r < 2 ^ 128) :
    (generate_seed r).length = 128 := by
  have hle : (pyBin r).length ≤ 128 := pyBin_length_le hr (by norm_num)
  unfold generate_seed pyZfill
  rw [List.length_append, List.length_replicate]
  omega

lemma generate_seed_chars {r : Nat} :
    ∀ c ∈ generate_seed r, c = '0' ∨ c = '1' := by
  intro c hc
  unfold generate_seed pyZfill at hc
  rcases List.mem_append.mp hc with hc | hc
  · exact Or.inl (List.eq_of_mem_replicate hc)
  · exact pyBin_chars c hc

/-- C8.  For every draw of `getrandbits(128)` — including draws with
high-order zero bits — `generate_seed` returns a string of exactly 128
characters, each `'0'` or `'1'`; and on a successful run `get_route`
installs that very seed in both endpoints' payment records. -/
theorem claim_C8 (net : List NodeSt) (alice bob : Int) (amount r128 rCtr : Nat)
    (hr : r128 < 2 ^ 128) :
    (generate_seed r128).length = 128 ∧
    (∀ c ∈ generate_seed r128, c = '0' ∨ c = '1') ∧
    ((get_route net alice bob amount r128 rCtr).2.2 = none →
      ∃ na nb pa pb,
        (get_route net alice bob amount r128 rCtr).1[alice.toNat]? = some na ∧
        (get_route net alice bob amount r128 rCtr).1[bob.toNat]? = some nb ∧
        na.payment = some pa ∧ nb.payment = some pb ∧
        pa.seed = generate_seed r128 ∧ pb.seed = generate_seed r128) := by
  refine ⟨generate_seed_length hr, generate_seed_chars, ?_⟩
  intro h
  obtain ⟨ha, hb⟩ := get_route_installed net alice bob amount r128 rCtr h
  exact ⟨_, _, _, _, ha, hb, rfl, rfl, rfl, rfl⟩

theorem claim_C8_witness :
    (0 : Nat) < 2 ^ 128 ∧
    ((generate_seed 0).length = 128 ∧
      (∀ c ∈ generate_seed 0, c = '0' ∨ c = '1') ∧
      ((get_route netW 0 1 1 0 0).2.2 = none →
        ∃ na nb pa pb,
          (get_route netW 0 1 1 0 0).1[(0 : Int).toNat]? = some na ∧
          (get_route netW 0 1 1 0 0).1[(1 : Int).toNat]? = some nb ∧
          na.payment = some pa ∧ nb.payment = some pb ∧
          pa.seed = generate_seed 0 ∧ pb.seed = generate_seed 0)) :=
  ⟨by norm_num, claim_C8 netW 0 1 1 0 0 (by norm_num)⟩

/-- C9.  On every successful `get_route` call the two installed payment
records have mutually exclusive role flags — Alice's record is
Alice-side only, Bob's record is Bob-side only — and both carry the
same fee budget, the sum `node_bob.maxfees + node_alice.maxfees` of
the endpoints' maximum fee tolerances. -/
theorem claim_C9 (net : List NodeSt) (alice bob : Int) (amount r128 rCtr : Nat)
    (h : (get_route net alice bob amount r128 rCtr).2.2 = none) :
    ∃ na nb pa pb,
      (get_route net alice bob amount r128 rCtr).1[alice.toNat]? = some na ∧
      (get_route net alice bob amount r128 rCtr).1[bob.toNat]? = some nb ∧
      na.payment = some pa ∧ nb.payment = some pb ∧
      pa.is_alice = true ∧ pa.is_bob = false ∧
      pb.is_bob = true ∧ pb.is_alice = false ∧
      pa.fees = (net.getD bob.toNat default).maxfees +
        (net.getD alice.toNat default).maxfees ∧
      pb.fees = pa.fees := by
  obtain ⟨ha, hb⟩ := get_route_installed net alice bob amount r128 rCtr h
  exact ⟨_, _, _, _, ha, hb, rfl, rfl, rfl, rfl, rfl, rfl, rfl, rfl⟩

theorem claim_C9_witness :
    (get_route netW 0 1 1 0 0).2.2 = none ∧
    (∃ na nb pa pb,
      (get_route netW 0 1 1 0 0).1[(0 : Int).toNat]? = some na ∧
      (get_route netW 0 1 1 0 0).1[(1 : Int).toNat]? = some nb ∧
      na.payment = some pa ∧ nb.payment = some pb ∧
      pa.is_alice = true ∧ pa.is_bob = false ∧
      pb.is_bob = true ∧ pb.is_alice = false ∧
      pa.fees = (netW.getD (1 : Int).toNat default).maxfees +
        (netW.getD (0 : Int).toNat default).maxfees ∧
      pb.fees = pa.fees) :=
  ⟨rfl, claim_C9 netW 0 1 1 0 0 rfl⟩

/-- A node as touched by the watcher: only whether its search process
is running.  `Node.stop()` lives in the missing `ant_testing` module
and is modelled from the spec as clearing the running flag
(cooperative cancellation, §4.1 step 3 / §5). -/
structure CNode where
  running : Bool
deriving DecidableEq

/-- Shallow embedding of `stop_all_nodes(network)` (src/ant_easy.py
lines 64-68): calls `node.stop()` on every node of the network. -/
def stop_all_nodes (net : List CNode) : List CNode :=
  net.map fun _ => ⟨false⟩

/-- Shallow embedding of `check_match(network, fromNode, checkTime,
stop)` (src/ant_easy.py lines 120-133).  The polled field
`network[fromNode].payment.match` is written concurrently by the
search tasks (in the missing `ant_testing` module), so it is modelled
as the trace `matchAt : Nat → Bool` giving its truthiness at the k-th
poll; the `await asyncio.sleep(checkTime)` between polls becomes the
step from poll `t` to poll `t + 1`.  `fuel` bounds the number of polls
observed: `none` means the loop is still waiting after `fuel` polls.
On exit the final network state is returned. -/
def check_match (matchAt : Nat → Bool) (stop : Bool) (net : List CNode) :
    Nat → Nat → Option (List CNode)
  | 0, _ => none
  | fuel + 1, t =>
    if matchAt t = false then check_match matchAt stop net fuel (t + 1)
    else some (if stop then stop_all_nodes net else net)

lemma check_match_found {matchAt : Nat → Bool} {stop : Bool}
    {net : List CNode} :
    ∀ {fuel t0 net'}, check_match matchAt stop net fuel t0 = some net' →
      (∃ t, t0 ≤ t ∧ matchAt t = true) ∧
      net' = (if stop then stop_all_nodes net else net) := by
  intro fuel
  induction fuel with
  | zero => intro t0 net' h; cases h
  | succ f ih =>
    intro t0 net' h
    rw [check_match] at h
    by_cases hm : matchAt t0 = false
    · rw [if_pos hm] at h
      obtain ⟨⟨t, ht, hmt⟩, hnet⟩ := ih h
      exact ⟨⟨t, by omega, hmt⟩, hnet⟩
    · rw [if_neg hm] at h
      cases h
      exact ⟨⟨t0, le_refl t0, by revert hm; cases matchAt t0 <;> simp⟩, rfl⟩

lemma check_match_terminates {matchAt : Nat → Bool} {stop : Bool}
    {net : List CNode} :
    ∀ {fuel t0 t1}, matchAt t1 = true → t0 ≤ t1 → t1 - t0 < fuel →
      ∃ net', check_match matchAt stop net fuel t0 = some net' := by
  intro fuel
  induction fuel with
  | zero => intro t0 t1 _ _ h; omega
  | succ f ih =>
    intro t0 t1 hm hle hlt
    rw [check_match]
    by_cases h0 : matchAt t0 = false
    · rw [if_pos h0]
      have ht : t0 ≠ t1 := fun he => by rw [he, hm] at h0; cases h0
      exact ih hm (by omega) (by omega)
    · rw [if_neg h0]
      exact ⟨_, rfl⟩

/-- C6.  The watcher stops nodes only after observing the match field
set: if `network[fromNode].payment.match` stays unset at every poll
the loop never exits (and never stops a node); once the field is set
at some poll, `check_match` terminates within a bounded number of
polls; and on exit it has stopped every node of the network if its
`stop` parameter is `True`, and left the network untouched if it is
`False`. -/
theorem claim_C6 (matchAt : Nat → Bool) (stop : Bool) (net : List CNode)
    (fuel t0 : Nat) :
    ((∀ t, matchAt t = false) → check_match matchAt stop net fuel t0 = none) ∧
    (∀ net', check_match matchAt stop net fuel t0 = some net' →
      (∃ t, t0 ≤ t ∧ matchAt t = true) ∧
      (stop = true → net'.length = net.length ∧ ∀ n ∈ net', n.running = false) ∧
      (stop = false → net' = net)) ∧
    (∀ t1, matchAt t1 = true → t0 ≤ t1 → t1 - t0 < fuel →
      ∃ net', check_match matchAt stop net fuel t0 = some net') := by
  refine ⟨?_, ?_, fun t1 h1 h2 h3 => check_match_terminates h1 h2 h3⟩
  · intro hall
    induction fuel generalizing t0 with
    | zero => rfl
    | succ f ih => rw [check_match, if_pos (hall t0)]; exact ih _
  · intro net' h
    obtain ⟨hfound, hnet⟩ := check_match_found h
    refine ⟨hfound, ?_, ?_⟩
    · intro hs
      rw [hs] at hnet
      simp only [if_pos] at hnet
      subst hnet
      refine ⟨List.length_map _ _, ?_⟩
      intro n hn
      obtain ⟨m, _, hm⟩ := List.mem_map.mp hn
      rw [← hm]
    · intro hs
      rw [hs] at hnet
      simpa using hnet

/-- Concrete data for the C6 witness: the match field becomes set at
the third poll; the network has one running node. -/
def matchAtW : Nat → Bool := fun t => decide (2 ≤ t)

def cnetW : List CNode := [⟨true⟩]

theorem claim_C6_witness :
    ((∀ t, matchAtW t = false) → check_match matchAtW true cnetW 5 0 = none) ∧
    (∀ net', check_match matchAtW true cnetW 5 0 = some net' →
      (∃ t, 0 ≤ t ∧ matchAtW t = true) ∧
      (true = true → net'.length = cnetW.length ∧ ∀ n ∈ net', n.running = false) ∧
      (true = false → net' = cnetW)) ∧
    (∀ t1, matchAtW t1 = true → 0 ≤ t1 → t1 - 0 < 5 →
      ∃ net', check_match matchAtW true cnetW 5 0 = some net') :=
  claim_C6 matchAtW true cnetW 5 0

/-- A walk of length `k` from `u` to `w` along the neighbour map
`nbrs`, grown at its far end. -/
inductive WalkR (nbrs : Nat → List Nat) : Nat → Nat → Nat → Prop
  | nil (u : Nat) : WalkR nbrs u u 0
  | snoc (u v w k : Nat) : WalkR nbrs u v k → w ∈ nbrs v →
      WalkR nbrs u w (k + 1)

/-- Modelled from the spec: the per-node search process
(`Node.ant_route`, launched by `get_route`) lives in the missing
`ant_testing` module.  Following §4.1, the flood of one role is
modelled in synchronous rounds over the neighbour map: after round
`k + 1` a node is visited iff it was already visited or is a
neighbour of a visited node.  `floodList nbrs s k` lists the nodes
the role started at `s` has visited after `k` rounds. -/
def floodList (nbrs : Nat → List Nat) (s : Nat) : Nat → List Nat
  | 0 => [s]
  | k + 1 => floodList nbrs s k ++ (floodList nbrs s k).flatMap nbrs

/-- Modelled from the spec (§3, §4.1): a signal carrying hop-budget
counter `c` is relayed while the decremented counter stays positive,
so the flood started with counter `c` reaches exactly radius `c - 1`;
after `k` rounds the visited set is the flood capped at that radius. -/
def visitedUpTo (nbrs : Nat → List Nat) (s c k : Nat) : List Nat :=
  floodList nbrs s (min k (c - 1))

lemma floodList_mono (nbrs : Nat → List Nat) (s : Nat) {k k' : Nat}
    (h : k ≤ k') : ∀ v ∈ floodList nbrs s k, v ∈ floodList nbrs s k' := by
  induction h with
  | refl => exact fun v hv => hv
  | step _ ih =>
    intro v hv
    exact List.mem_append_left _ (ih v hv)

lemma walkR_mem_floodList {nbrs : Nat → List Nat} {s v k : Nat}
    (h : WalkR nbrs s v k) : v ∈ floodList nbrs s k := by
  induction h with
  | nil => exact List.mem_singleton.mpr rfl
  | snoc v w k _ hw ih =>
    exact List.mem_append_right _ (List.mem_flatMap.mpr ⟨v, ih, hw⟩)

lemma walkR_trans {nbrs : Nat → List Nat} {a b c i j : Nat}
    (h1 : WalkR nbrs a b i) (h2 : WalkR nbrs b c j) :
    WalkR nbrs a c (i + j) := by
  induction h2 with
  | nil => exact h1
  | snoc v w k _ hw ih => exact WalkR.snoc _ _ _ _ ih hw

lemma walkR_symm {nbrs : Nat → List Nat}
    (hsym : ∀ u v, u ∈ nbrs v → v ∈ nbrs u) {u w k : Nat}
    (h : WalkR nbrs u w k) : WalkR nbrs w u k := by
  induction h with
  | nil => exact WalkR.nil u
  | snoc v w k _ hw ih =>
    have hstep : WalkR nbrs w v 1 :=
      WalkR.snoc _ _ _ _ (WalkR.nil w) (hsym w v hw)
    have := walkR_trans hstep ih
    rwa [Nat.add_comm] at this

lemma walkR_split {nbrs : Nat → List Nat} {u w L : Nat}
    (h : WalkR nbrs u w L) :
    ∀ j ≤ L, ∃ m, WalkR nbrs u m j ∧ WalkR nbrs m w (L - j) := by
  induction h with
  | nil =>
    intro j hj
    have : j = 0 := Nat.le_zero.mp hj
    subst this
    exact ⟨u, WalkR.nil u, WalkR.nil u⟩
  | snoc v w k hwalk hw ih =>
    intro j hj
    by_cases hjk : j ≤ k
    · obtain ⟨m, hm1, hm2⟩ := ih j hjk
      have he : k + 1 - j = (k - j) + 1 := by omega
      rw [he]
      exact ⟨m, hm1, WalkR.snoc _ _ _ _ hm2 hw⟩
    · have : j = k + 1 := by omega
      subst this
      rw [Nat.sub_self]
      exact ⟨w, WalkR.snoc _ _ _ _ hwalk hw, WalkR.nil w⟩

/-- C5 (modelled from the spec: the search process is not in src/).
In a connected undirected graph, if the distance between the two
distinct endpoints is within the combined hop budgets of the two
searches — each flood with initial counter `c` reaches radius `c - 1`
— then some node is eventually (from round `c - 1` on, and forever
after) visited by both roles: the search launched by `get_route`
produces a match for the seed. -/
theorem claim_C5 (nbrs : Nat → List Nat) (A B L c : Nat)
    (hsym : ∀ u v, u ∈ nbrs v → v ∈ nbrs u)
    (hwalk : WalkR nbrs A B L) (hL : L ≤ (c - 1) + (c - 1)) :
    ∃ m, ∀ k, c - 1 ≤ k →
      m ∈ visitedUpTo nbrs A c k ∧ m ∈ visitedUpTo nbrs B c k := by
  obtain ⟨m, h1, h2⟩ := walkR_split hwalk (min (c - 1) L) (Nat.min_le_right _ _)
  have hmA : m ∈ floodList nbrs A (c - 1) :=
    floodList_mono nbrs A (Nat.min_le_left _ _) m (walkR_mem_floodList h1)
  have h2' : WalkR nbrs B m (L - min (c - 1) L) := walkR_symm hsym h2
  have hmB : m ∈ floodList nbrs B (c - 1) :=
    floodList_mono nbrs B (by omega) m (walkR_mem_floodList h2')
  refine ⟨m, fun k hk => ?_⟩
  unfold visitedUpTo
  have hmin : min k (c - 1) = c - 1 := by omega
  rw [hmin]
  exact ⟨hmA, hmB⟩

/-- The 3-node line graph `0 – 1 – 2` of the spec's concrete
scenario (§8). -/
def nbrsW : Nat → List Nat
  | 0 => [1]
  | 1 => [0, 2]
  | 2 => [1]
  | _ => []

lemma nbrsW_symm : ∀ u v, u ∈ nbrsW v → v ∈ nbrsW u := by
  intro u v h
  rcases v with _ | _ | _ | v
  · simp [nbrsW] at h; subst h; decide
  · simp [nbrsW] at h; rcases h with h | h <;> (subst h; decide)
  · simp [nbrsW] at h; subst h; decide
  · simp [nbrsW] at h

theorem claim_C5_witness :
    (∀ u v, u ∈ nbrsW v → v ∈ nbrsW u) ∧ WalkR nbrsW 0 2 2 ∧
    2 ≤ (2 - 1) + (2 - 1) ∧
    ∃ m, ∀ k, 2 - 1 ≤ k →
      m ∈ visitedUpTo nbrsW 0 2 k ∧ m ∈ visitedUpTo nbrsW 2 2 k := by
  have hwalk : WalkR nbrsW 0 2 2 := by
    refine WalkR.snoc _ 1 _ _ ?_ (by decide)
    exact WalkR.snoc _ 0 _ _ (WalkR.nil 0) (by decide)
  exact ⟨nbrsW_symm, hwalk, by decide,
    claim_C5 nbrsW 0 2 2 2 nbrsW_symm hwalk (by decide)⟩

end AntRouting
